import Mathlib

/-!
Verification of the unraid-file-inventory scanners against their
natural-language specification.

The development shallowly embeds the Python source:

* `nas_scanner_hp.py` — the per-chunk scan worker: `calculate_checksum`,
  `categorize_file`, `scan_directory` and `DatabaseManager.save_files`
  (the SQLite `INSERT OR REPLACE` batch writer).
* `smart_scanner/smart_scanner.py` — `DirectoryAnalyzer.get_directory_size`,
  `DirectoryAnalyzer.list_quick_chunks` and the container orchestration of
  `SmartScanner`.
* `smart_scanner/progressive_scanner.py` — `ProgressiveChunkGenerator`
  (resume filtering) and the `ProgressiveScanner` worker-pool loop.

File contents are byte lists (`List Nat`), paths are character lists
(`List Char`), the blake2b digest is an abstract parameter
`H : List Nat → String` (every claim here is about *which bytes* are fed
to the hash, never about the digest function itself), and subprocess /
filesystem outcomes are explicit parameters of the embedded functions.
-/

namespace NasInventory

/-! ### Constants (nas_scanner_hp.py, smart_scanner.py) -/

/-- `LARGE_FILE_THRESHOLD = 10 * 1024 * 1024` (10 MiB). -/
def LARGE_FILE_THRESHOLD : Nat := 10 * 1024 * 1024

/-- `SAMPLE_SIZE = 64 * 1024` (64 KiB). -/
def SAMPLE_SIZE : Nat := 64 * 1024

/-! ### Scan worker: checksum computation (`calculate_checksum`) -/

/-- One `f.read(len)` after `f.seek(pos)` on a file whose bytes are `c`. -/
def fileRead (c : List Nat) (pos len : Nat) : List Nat :=
  (c.drop pos).take len

/-- The byte sequence fed to the `hashlib.blake2b()` object by
`calculate_checksum(filepath, size)` when the reads succeed, for a file
whose on-disk bytes are `c` (so `f.seek(-SAMPLE_SIZE, 2)` positions at
`c.length - SAMPLE_SIZE`, and the final `f.read()` reads to EOF).
Mirrors the `size > LARGE_FILE_THRESHOLD` branch (head sample, middle
sample at `size // 2`, tail sample) versus the full-content branch. -/
def checksumInput (size : Nat) (c : List Nat) : List Nat :=
  if size > LARGE_FILE_THRESHOLD then
    fileRead c 0 SAMPLE_SIZE ++ fileRead c (size / 2) SAMPLE_SIZE
      ++ c.drop (c.length - SAMPLE_SIZE)
  else c

/-- `calculate_checksum(filepath, size)`.  `content = none` models any
exception while opening or reading the file: the `except` clause turns it
into a `None` return value.  `H` is the blake2b hexdigest, abstract. -/
def calculate_checksum (H : List Nat → String) (content : Option (List Nat))
    (size : Nat) : Option String :=
  match content with
  | some c => some (H (checksumInput size c))
  | none => none

/-- The checksum stored on a file record by `scan_directory`
(`nas_scanner_hp.py` lines 184-188): files with `st_size > 0` get
`calculate_checksum`, empty files get the sentinel string `'empty'`. -/
def storedChecksum (H : List Nat → String) (content : Option (List Nat))
    (size : Nat) : Option String :=
  if size > 0 then calculate_checksum H content size else some "empty"

/-- The three byte regions of a large file that `calculate_checksum`
samples: the first 64 KiB, the 64 KiB starting at `size / 2`, and the
last 64 KiB. -/
def inSampledRegion (size i : Nat) : Prop :=
  i < SAMPLE_SIZE ∨ (size / 2 ≤ i ∧ i < size / 2 + SAMPLE_SIZE)
    ∨ (size - SAMPLE_SIZE ≤ i ∧ i < size)

instance (size i : Nat) : Decidable (inSampledRegion size i) := by
  unfold inSampledRegion; infer_instance

/-! ### Scan worker: file classification and directory scanning -/

/-- The static extension → category table `FILE_TYPES`. -/
def FILE_TYPES : List (List Char × List Char) := [
  (".jpg".toList, "photos".toList), (".jpeg".toList, "photos".toList),
  (".png".toList, "photos".toList), (".gif".toList, "photos".toList),
  (".mp4".toList, "videos".toList), (".avi".toList, "videos".toList),
  (".mkv".toList, "videos".toList), (".mov".toList, "videos".toList),
  (".mp3".toList, "music".toList), (".flac".toList, "music".toList),
  (".wav".toList, "music".toList), (".m4a".toList, "music".toList),
  (".pdf".toList, "documents".toList), (".doc".toList, "documents".toList),
  (".docx".toList, "documents".toList), (".txt".toList, "documents".toList),
  (".zip".toList, "archives".toList), (".rar".toList, "archives".toList),
  (".7z".toList, "archives".toList), (".tar".toList, "archives".toList),
  (".iso".toList, "disk_images".toList), (".img".toList, "disk_images".toList),
  (".dmg".toList, "disk_images".toList)]

/-- `str.lower()` on a character list. -/
def lowerChars (s : List Char) : List Char := s.map Char.toLower

/-- The final path component, as `pathlib.PurePath.name`: everything after
the last `'/'`. -/
def baseName (path : List Char) : List Char :=
  match path.reverse.findIdx? (fun ch => ch = '/') with
  | none => path
  | some j => path.drop (path.length - j)

/-- `pathlib.PurePath.suffix` of a file name: `name[i:]` for the last
index `i` of `'.'` when `0 < i < len(name) - 1`, else the empty string. -/
def pathSuffix (name : List Char) : List Char :=
  match name.reverse.findIdx? (fun ch => ch = '.') with
  | none => []
  | some j =>
    let i := name.length - 1 - j
    if 0 < i ∧ i < name.length - 1 then name.drop i else []

/-- `categorize_file(filepath)`: look the lowercased suffix up in
`FILE_TYPES`, defaulting to `'other'`. -/
def categorize_file (filepath : List Char) : List Char :=
  match FILE_TYPES.find?
      (fun kv => decide (kv.1 = lowerChars (pathSuffix (baseName filepath)))) with
  | some kv => kv.2
  | none => "other".toList

/-- One `os.scandir` entry as observed by `scan_directory`: its path and
name, whether `entry.is_file(follow_symlinks=False)` holds, whether
`entry.stat(follow_symlinks=False)` (and the rest of the per-entry body)
succeeded, the stat results, and the readable byte content
(`none` when opening/reading the file raises). -/
structure DirEntry where
  path : List Char
  name : List Char
  isFile : Bool
  statOk : Bool
  size : Nat
  mtime : Int
  content : Option (List Nat)
deriving DecidableEq

/-- One file record dict produced by `scan_directory` (the row shape of the
`files` table). -/
structure FileInfo where
  path : List Char
  size : Nat
  mtime : Int
  mount_point : List Char
  extension : List Char
  file_type : List Char
  scan_time : Int
  checksum : Option String
deriving DecidableEq

/-- The per-entry body of `scan_directory`: a record is produced exactly
when the entry is a regular file and its stat (and the rest of the guarded
block) raised no exception; any per-entry exception is logged and the entry
skipped. -/
def scanEntry (H : List Nat → String) (mount_name : List Char) (now : Int)
    (e : DirEntry) : Option FileInfo :=
  if e.isFile && e.statOk then
    some { path := e.path, size := e.size, mtime := e.mtime,
           mount_point := mount_name,
           extension := lowerChars (pathSuffix e.name),
           file_type := categorize_file e.path,
           scan_time := now,
           checksum := storedChecksum H e.content e.size }
  else none

/-- `scan_directory((path, mount_name))`: `listing = none` models
`os.scandir` itself raising (logged, empty result); otherwise each listed
entry is processed by the per-entry body. -/
def scan_directory (H : List Nat → String) (mount_name : List Char) (now : Int)
    (listing : Option (List DirEntry)) : List FileInfo :=
  match listing with
  | none => []
  | some entries => entries.filterMap (scanEntry H mount_name now)

/-! ### Checkpoint store: `DatabaseManager.save_files` -/

/-- The effect of one row of the `INSERT OR REPLACE INTO files` statement
on the `files` table (`path TEXT PRIMARY KEY`): any existing row with the
same path is replaced by the new row. -/
def upsertRow (db : List FileInfo) (r : FileInfo) : List FileInfo :=
  db.filter (fun x => !decide (x.path = r.path)) ++ [r]

/-- The successful path of `DatabaseManager.save_files(file_batch)`: the
`executemany` upserts every record of the batch, in order. -/
def save_files (db : List FileInfo) (batch : List FileInfo) : List FileInfo :=
  batch.foldl upsertRow db

/-- `SELECT * FROM files WHERE path = p` (at most one row by the primary
key). -/
def findRow (db : List FileInfo) (p : List Char) : Option FileInfo :=
  db.find? (fun x => decide (x.path = p))

/-- `DatabaseManager.save_files` with its `try/except`: an empty batch
returns immediately; a failed transaction (`ok = false`) leaves the table
unchanged and logs the error (second component `true`); the function never
propagates an exception to the caller, and the class keeps no buffer of the
failed batch. -/
def save_files_attempt (ok : Bool) (db batch : List FileInfo) :
    List FileInfo × Bool :=
  if batch.isEmpty then (db, false)
  else if ok then (save_files db batch, false)
  else (db, true)

/-- A sequence of `_save_batch` calls by the scan loop: each batch is
flushed once (with the given success flag) and then discarded by the
caller. -/
def runBatches (db : List FileInfo) (batches : List (List FileInfo × Bool)) :
    List FileInfo :=
  batches.foldl (fun d pr => (save_files_attempt pr.2 d pr.1).1) db

/-- A concrete unreadable directory entry used in witnesses. -/
def entryA : DirEntry :=
  ⟨"/m/a.txt".toList, "a.txt".toList, true, true, 5, 0, none⟩

/-- A concrete file record used in counterexamples and witnesses. -/
def rowA : FileInfo :=
  ⟨"/mnt/a.txt".toList, 3, 0, "m".toList, ".txt".toList,
    "documents".toList, 0, some "h1"⟩

/-- A second concrete file record. -/
def rowB : FileInfo :=
  ⟨"/mnt/b.txt".toList, 4, 0, "m".toList, ".txt".toList,
    "documents".toList, 0, some "h2"⟩

/-! ### Progressive chunk planner (`progressive_scanner.py`) -/

/-- A chunk dict produced by `ProgressiveChunkGenerator` (keys `path`,
`mount_name`, `type`, `priority`, `estimated_files`). -/
structure Chunk where
  path : List Char
  mount_name : List Char
  ctype : List Char
  priority : Nat
  estimated_files : Nat
deriving DecidableEq

/-- Python `s.rstrip('/')`. -/
def rstripSlash (s : List Char) : List Char :=
  (s.reverse.dropWhile (fun ch => ch == '/')).reverse

/-- `_count_scanned_subdirectories(parent_dir, scanned_chunks)`: how many
recorded paths start with `parent_dir.rstrip('/') + '/'` and differ from
`parent_dir`. -/
def countScannedSubdirs (parent : List Char) (scanned : List (List Char)) : Nat :=
  ((scanned.filter (fun sp =>
    (rstripSlash parent ++ ['/']).isPrefixOf sp && !decide (sp = parent)))).length

/-- `_is_toplevel_directory_complete(dir_path, mount_name, scanned_chunks)`:
true only when the exact path is recorded and at most 10 of its
subdirectories are recorded (more than 10 is taken as an interrupted
progressive scan). -/
def isTopLevelComplete (dir_path : List Char) (scanned : List (List Char)) : Bool :=
  if decide (dir_path ∈ scanned) then
    if countScannedSubdirs dir_path scanned > 10 then false else true
  else false

/-- `ProgressiveChunkGenerator.generate_initial_chunks(root_path,
mount_name, scanned_chunks)`.  The filesystem listing of top-level
non-hidden directories is a parameter: `none` models `os.listdir` raising
(the emergency fallback branch), `some []` the no-subdirectory branch, and
`some dirs` the main loop, in which a directory is skipped exactly when
`_is_toplevel_directory_complete` holds for it and is otherwise emitted
with priority `i + 1`. -/
def generate_initial_chunks (root_path mount_name : List Char)
    (listing : Option (List (List Char))) (scanned : List (List Char)) :
    List Chunk :=
  match listing with
  | none =>
    if decide (root_path ∈ scanned) then []
    else [⟨root_path, mount_name, "emergency".toList, 1, 0⟩]
  | some directories =>
    if directories.isEmpty then
      if decide (root_path ∈ scanned) then []
      else [⟨root_path, mount_name, "root".toList, 1, 0⟩]
    else
      directories.enum.filterMap (fun iv =>
        if isTopLevelComplete iv.2 scanned then none
        else some ⟨iv.2, mount_name, "toplevel".toList, iv.1 + 1, 0⟩)

/-- A completed-set fixture: `/r/a` is recorded together with 11 of its
subdirectories. -/
def scannedEx : List (List Char) :=
  ["/r/a", "/r/a/s01", "/r/a/s02", "/r/a/s03", "/r/a/s04", "/r/a/s05",
   "/r/a/s06", "/r/a/s07", "/r/a/s08", "/r/a/s09", "/r/a/s10",
   "/r/a/s11"].map String.toList

/-- The chunk the planner emits for `/r/a` in the fixture. -/
def chunkA : Chunk := ⟨"/r/a".toList, "m".toList, "toplevel".toList, 1, 0⟩

/-- A second chunk fixture. -/
def chunkB : Chunk := ⟨"/r/b".toList, "m".toList, "toplevel".toList, 2, 0⟩

/-! ### Directory sizing probe (`DirectoryAnalyzer.get_directory_size`) -/

/-- Default `CHUNK_SIZE_BYTES = 100 GiB` (the `--chunk-size` flag can
override it, so the embedded probe takes the threshold as a parameter). -/
def CHUNK_SIZE_BYTES : Nat := 100 * 1024 * 1024 * 1024

/-- Result of the `find | wc -l` quick count subprocess: a return code and
parsed count, or any exception (timeout, parse failure). -/
inductive CountOutcome
  | ok (returncode : Int) (count : Nat)
  | exc
deriving DecidableEq

/-- Result of the `find -printf` size subprocess: a return code with the
parsed per-file sizes, or a caught timeout/process error. -/
inductive FindOutcome
  | ok (returncode : Int) (sizes : List Nat)
  | fail
deriving DecidableEq

/-- Result of the `du -sb` subprocess: return code and parsed size, a
`subprocess.TimeoutExpired`, or any other exception. -/
inductive DuOutcome
  | ok (returncode : Int) (size : Nat)
  | timeout
  | exc
deriving DecidableEq

/-- `needle in hay` on Python strings. -/
def isSubstring (needle hay : List Char) : Bool :=
  hay.tails.any (fun t => needle.isPrefixOf t)

/-- The `'/mnt/user/' in path and path.count('/') <= 3` heuristic used when
the quick count raises. -/
def isRootMountPath (path : List Char) : Bool :=
  isSubstring "/mnt/user/".toList path && decide (path.count '/' ≤ 3)

/-- The `du -sb` fallback of `get_directory_size`: success returns the
parsed size, a non-zero exit returns 0, `TimeoutExpired` returns
`CHUNK_SIZE_BYTES + 1` (treat as oversized), any other exception returns
0. -/
def duProbe (chunkBytes : Nat) (duR : DuOutcome) : Nat :=
  match duR with
  | DuOutcome.ok rc size => if rc = 0 then size else 0
  | DuOutcome.timeout => chunkBytes + 1
  | DuOutcome.exc => 0

/-- The sizing block of `get_directory_size`: try the fast `find` method
(used only on exit 0 with a non-empty parsed size list), else fall back to
`du`. -/
def sizingProbe (chunkBytes : Nat) (findR : FindOutcome) (duR : DuOutcome) : Nat :=
  match findR with
  | FindOutcome.ok rc sizes =>
    if rc = 0 ∧ sizes ≠ [] then sizes.sum else duProbe chunkBytes duR
  | FindOutcome.fail => duProbe chunkBytes duR

/-- `DirectoryAnalyzer.get_directory_size(path)` as a function of the cache
entry for `path` and the three subprocess outcomes: a cache hit returns the
cached value; the quick count returns `CHUNK_SIZE_BYTES + 1` when it exits
0 with more than 50000 files; a quick-count exception returns
`CHUNK_SIZE_BYTES + 1` for root mount paths; otherwise the sizing block
runs. -/
def get_directory_size (chunkBytes : Nat) (path : List Char)
    (cache : Option Nat) (countR : CountOutcome) (findR : FindOutcome)
    (duR : DuOutcome) : Nat :=
  match cache with
  | some v => v
  | none =>
    match countR with
    | CountOutcome.ok rc cnt =>
      if rc = 0 ∧ 50000 < cnt then chunkBytes + 1
      else sizingProbe chunkBytes findR duR
    | CountOutcome.exc =>
      if isRootMountPath path then chunkBytes + 1
      else sizingProbe chunkBytes findR duR

/-- Whether control reaches the `du` fallback: the quick count neither
returned an oversized verdict nor hit the root-mount heuristic, and the
fast `find` method did not return. -/
def reachesDuProbe (path : List Char) (countR : CountOutcome)
    (findR : FindOutcome) : Prop :=
  (match countR with
   | CountOutcome.ok rc cnt => ¬(rc = 0 ∧ 50000 < cnt)
   | CountOutcome.exc => isRootMountPath path = false)
  ∧ (match findR with
     | FindOutcome.ok rc sizes => ¬(rc = 0 ∧ sizes ≠ [])
     | FindOutcome.fail => True)

/-! ### Fast-mode planning (`DirectoryAnalyzer.list_quick_chunks`) -/

/-- An `os.scandir` entry as seen by `list_quick_chunks`: its path and
whether `entry.is_dir(follow_symlinks=False)` holds. -/
structure ScanEntry where
  path : List Char
  isDir : Bool
deriving DecidableEq

/-- A chunk dict produced by `smart_scanner.py` (keys `path`, `size_gb`,
`mount_name`, `depth`, `note`). -/
structure QChunk where
  path : List Char
  size_gb : Nat
  mount_name : List Char
  depth : Nat
  note : List Char
deriving DecidableEq

/-- `DirectoryAnalyzer.list_quick_chunks(root_path, mount_name)`: one chunk
per top-level subdirectory; when none were collected (no subdirectories, or
`os.scandir` raised — `listing = none`) a single `fast-root` fallback chunk
for the root path itself. -/
def list_quick_chunks (root_path mount_name : List Char)
    (listing : Option (List ScanEntry)) : List QChunk :=
  let chunks :=
    match listing with
    | none => []
    | some entries =>
      (entries.filter (fun e => e.isDir)).map
        (fun e => (⟨e.path, 0, mount_name, 1, "fast".toList⟩ : QChunk))
  if chunks.isEmpty then
    [⟨root_path, 0, mount_name, 0, "fast-root".toList⟩]
  else chunks

/-- A listing fixture: one subdirectory and one plain file. -/
def entriesEx : List ScanEntry :=
  [⟨"/r/a".toList, true⟩, ⟨"/r/b.txt".toList, false⟩]

/-! ### Orchestrator concurrency (`scan_mount_point` worker pools) -/

/-- The orchestration state: one slot per pool thread
(`ThreadPoolExecutor(max_workers=MAX_CONTAINERS)` in `smart_scanner.py`;
the `MAX_CONTAINERS` submitted `_chunk_processor_worker` threads in
`progressive_scanner.py`), `true` while that thread has a running
container, plus the count of queued chunks. -/
structure PoolState where
  busy : List Bool
  queued : Nat
deriving DecidableEq

/-- Interleaved execution steps of the worker pool: an idle thread pops a
chunk and starts its container (`start_container` / `_process_chunk`); a
thread whose container terminated frees its slot; the adaptive generator
enqueues more chunks.  Each thread runs at most one container at a time
because `_process_chunk` and `_chunk_processor_worker` block on their
container until it exits. -/
inductive PoolStep : PoolState → PoolState → Prop
  | launch (s : PoolState) (i : Nat) (hidle : s.busy[i]? = some false)
      (hq : 0 < s.queued) : PoolStep s ⟨s.busy.set i true, s.queued - 1⟩
  | finish (s : PoolState) (i : Nat) (hbusy : s.busy[i]? = some true) :
      PoolStep s ⟨s.busy.set i false, s.queued⟩
  | enqueue (s : PoolState) (k : Nat) : PoolStep s ⟨s.busy, s.queued + k⟩

/-- States reachable from a start state with `n` idle pool threads and any
number of initially planned chunks. -/
inductive PoolReachable (n : Nat) : PoolState → Prop
  | init (k : Nat) : PoolReachable n ⟨List.replicate n false, k⟩
  | step (s t : PoolState) (hs : PoolReachable n s) (hst : PoolStep s t) :
      PoolReachable n t

/-- The number of simultaneously running containers. -/
def activeContainers (s : PoolState) : Nat := s.busy.count true

/-! ### Failure handling in the chunk processing loop -/

/-- Terminal outcome of dispatching one chunk: `docker run` itself failed
(no worker ran), or the container exited with the given code. -/
inductive ChunkOutcome
  | launchFail
  | exits (code : Int)
deriving DecidableEq

/-- The `completed_chunks` / `failed_chunks` counters. -/
structure OrchCounters where
  completed : Nat
  failed : Nat
deriving DecidableEq

/-- One iteration of `ProgressiveScanner._chunk_processor_worker`: pop a
chunk, start its container (a launch failure increments `failed_chunks`
and moves on), wait for it (`_wait_for_container`), then count it
completed on exit 0 and failed otherwise.  Nothing is ever re-enqueued. -/
def processChunkStep (outcome : List Char → ChunkOutcome)
    (st : OrchCounters) (ch : Chunk) : OrchCounters :=
  match outcome ch.path with
  | ChunkOutcome.launchFail => ⟨st.completed, st.failed + 1⟩
  | ChunkOutcome.exits code =>
    if code = 0 then ⟨st.completed + 1, st.failed⟩
    else ⟨st.completed, st.failed + 1⟩

/-- Processing a queue of chunks to exhaustion: each queued chunk is
handled exactly once, in order. -/
def processQueue (outcome : List Char → ChunkOutcome) (q : List Chunk) :
    OrchCounters :=
  q.foldl (processChunkStep outcome) ⟨0, 0⟩

/-- Whether dispatching a chunk actually runs a worker (its container
started and exited, with any code). -/
def isWorkerRun (outcome : List Char → ChunkOutcome) (ch : Chunk) : Bool :=
  match outcome ch.path with
  | ChunkOutcome.launchFail => false
  | ChunkOutcome.exits _ => true

/-- How many worker invocations path `p` receives while the queue is
processed. -/
def workerInvocations (outcome : List Char → ChunkOutcome) (q : List Chunk)
    (p : List Char) : Nat :=
  (q.filter (fun ch => decide (ch.path = p) && isWorkerRun outcome ch)).length

/-- Whether a chunk's dispatch counts as completed (container exit 0). -/
def chunkSucceeds (outcome : List Char → ChunkOutcome) (ch : Chunk) : Bool :=
  match outcome ch.path with
  | ChunkOutcome.launchFail => false
  | ChunkOutcome.exits code => decide (code = 0)

/-- An outcome assignment under which `/r/a` always fails (exit 1) and
every other chunk succeeds. -/
def outcomeAlwaysFail : List Char → ChunkOutcome :=
  fun p => if p = "/r/a".toList then ChunkOutcome.exits 1
    else ChunkOutcome.exits 0

/-! ### C2 -/

/-- C2: for a readable file (content `c` available, `size = c.length`) the
stored checksum is the sentinel `"empty"` when the size is 0, the digest of
the whole content when `0 < size ≤ 10*1024*1024`, and for larger files the
digest of exactly the three 64 KiB samples — head, middle at `size / 2`,
tail — concatenated in that order. -/
theorem C2_stored_checksum (H : List Nat → String) (c : List Nat) :
    (c.length = 0 → storedChecksum H (some c) c.length = some "empty")
    ∧ (0 < c.length → c.length ≤ LARGE_FILE_THRESHOLD →
        storedChecksum H (some c) c.length = some (H c))
    ∧ (LARGE_FILE_THRESHOLD < c.length →
        storedChecksum H (some c) c.length =
          some (H (fileRead c 0 SAMPLE_SIZE
            ++ fileRead c (c.length / 2) SAMPLE_SIZE
            ++ fileRead c (c.length - SAMPLE_SIZE) SAMPLE_SIZE))) := by
  refine ⟨fun h0 => ?_, fun hpos hle => ?_, fun hbig => ?_⟩
  · simp [storedChecksum, h0]
  · simp only [storedChecksum, if_pos hpos, calculate_checksum, checksumInput]
    rw [if_neg (by omega)]
  · have hpos : 0 < c.length := by
      have : (0:Nat) < LARGE_FILE_THRESHOLD := by decide
      omega
    simp only [storedChecksum, if_pos hpos, calculate_checksum, checksumInput,
      gt_iff_lt, if_pos hbig]
    have hss : SAMPLE_SIZE ≤ c.length := by
      have : SAMPLE_SIZE ≤ LARGE_FILE_THRESHOLD := by decide
      omega
    have htail : c.drop (c.length - SAMPLE_SIZE) =
        fileRead c (c.length - SAMPLE_SIZE) SAMPLE_SIZE := by
      unfold fileRead
      rw [List.take_of_length_le]
      rw [List.length_drop]
      omega
    rw [htail]

/-- Concrete instantiation of `C2_stored_checksum`: an empty file, a small
readable file, and a file of 10 MiB + 1 bytes. -/
theorem C2_stored_checksum_witness :
    (storedChecksum (fun _ => "d") (some ([] : List Nat)) ([] : List Nat).length
        = some "empty")
    ∧ (storedChecksum (fun _ => "d") (some [7]) [7].length = some "d")
    ∧ (storedChecksum (fun _ => "d") (some (List.replicate (10*1024*1024 + 1) 0))
        (List.replicate (10*1024*1024 + 1) 0).length = some "d") := by
  refine ⟨(C2_stored_checksum (fun _ => "d") []).1 rfl, ?_, ?_⟩
  · have h := (C2_stored_checksum (fun _ => "d") [7]).2.1 (by decide)
      (by decide)
    exact h
  · have h := (C2_stored_checksum (fun _ => "d")
      (List.replicate (10*1024*1024 + 1) 0)).2.2
      (by rw [List.length_replicate]; decide)
    exact h

/-! ### C7: fingerprint determinism and sample sensitivity -/

lemma sample_bounds {n : Nat} (hbig : LARGE_FILE_THRESHOLD < n) :
    SAMPLE_SIZE ≤ n ∧ SAMPLE_SIZE ≤ n - n / 2 ∧ SAMPLE_SIZE ≤ n / 2 := by
  have h1 : LARGE_FILE_THRESHOLD = 10485760 := rfl
  have h2 : SAMPLE_SIZE = 65536 := rfl
  omega

/-- For a large file, `checksumInput` is the concatenation of the head,
middle and tail 64 KiB segments. -/
lemma checksumInput_big (c : List Nat) (hbig : LARGE_FILE_THRESHOLD < c.length) :
    checksumInput c.length c =
      c.take SAMPLE_SIZE ++ ((c.drop (c.length / 2)).take SAMPLE_SIZE
        ++ c.drop (c.length - SAMPLE_SIZE)) := by
  unfold checksumInput fileRead
  rw [if_pos hbig, List.drop_zero, List.append_assoc]

/-- Where each sampled byte of the original file lands inside
`checksumInput`: position `i` for the head sample, `SAMPLE_SIZE + i` for
the middle sample, `2 * SAMPLE_SIZE + i` for the tail sample. -/
lemma checksumInput_getElem (b : List Nat)
    (hbig : LARGE_FILE_THRESHOLD < b.length) (i : Nat) (hi : i < SAMPLE_SIZE) :
    (checksumInput b.length b)[i]? = b[i]?
    ∧ (checksumInput b.length b)[SAMPLE_SIZE + i]? = b[b.length / 2 + i]?
    ∧ (checksumInput b.length b)[2 * SAMPLE_SIZE + i]?
        = b[b.length - SAMPLE_SIZE + i]? := by
  obtain ⟨hs1, hs2, hs3⟩ := sample_bounds hbig
  have ha1 : (b.take SAMPLE_SIZE).length = SAMPLE_SIZE := by
    rw [List.length_take]; omega
  have ha2 : ((b.drop (b.length / 2)).take SAMPLE_SIZE).length = SAMPLE_SIZE := by
    rw [List.length_take, List.length_drop]; omega
  rw [checksumInput_big b hbig]
  refine ⟨?_, ?_, ?_⟩
  · rw [List.getElem?_append, if_pos (by omega), List.getElem?_take,
      if_pos hi]
  · rw [List.getElem?_append, if_neg (by omega), ha1]
    have h1 : SAMPLE_SIZE + i - SAMPLE_SIZE = i := by omega
    rw [h1, List.getElem?_append, if_pos (by omega), List.getElem?_take,
      if_pos hi, List.getElem?_drop]
  · rw [List.getElem?_append, if_neg (by omega), ha1]
    have h1 : 2 * SAMPLE_SIZE + i - SAMPLE_SIZE = SAMPLE_SIZE + i := by omega
    rw [h1, List.getElem?_append, if_neg (by omega), ha2]
    have h2 : SAMPLE_SIZE + i - SAMPLE_SIZE = i := by omega
    rw [h2, List.getElem?_drop]

/-- C7: fingerprinting is deterministic (identical content gives identical
fingerprints); for two files larger than 10 MiB of equal size that agree on
all three sampled regions the fingerprints coincide; and a byte difference
inside any sampled region yields different byte sequences fed to the hash. -/
theorem C7_fingerprint (H : List Nat → String) (c1 c2 : List Nat)
    (hlen : c1.length = c2.length) (hbig : LARGE_FILE_THRESHOLD < c1.length) :
    (c1 = c2 → calculate_checksum H (some c1) c1.length
        = calculate_checksum H (some c2) c2.length)
    ∧ ((∀ i : Nat, inSampledRegion c1.length i → c1[i]? = c2[i]?) →
        calculate_checksum H (some c1) c1.length
          = calculate_checksum H (some c2) c2.length)
    ∧ (∀ i : Nat, inSampledRegion c1.length i → c1[i]? ≠ c2[i]? →
        checksumInput c1.length c1 ≠ checksumInput c2.length c2) := by
  obtain ⟨hs1, hs2, hs3⟩ := sample_bounds hbig
  have hbig2 : LARGE_FILE_THRESHOLD < c2.length := hlen ▸ hbig
  refine ⟨fun he => by rw [he], fun hagree => ?_, fun i hreg hne => ?_⟩
  · have hseg1 : c1.take SAMPLE_SIZE = c2.take SAMPLE_SIZE := by
      apply List.ext_getElem?
      intro j
      rw [List.getElem?_take, List.getElem?_take]
      by_cases hj : j < SAMPLE_SIZE
      · rw [if_pos hj, if_pos hj]
        exact hagree j (Or.inl hj)
      · rw [if_neg hj, if_neg hj]
    have hseg2 : (c1.drop (c1.length / 2)).take SAMPLE_SIZE
        = (c2.drop (c2.length / 2)).take SAMPLE_SIZE := by
      apply List.ext_getElem?
      intro j
      rw [List.getElem?_take, List.getElem?_take]
      by_cases hj : j < SAMPLE_SIZE
      · rw [if_pos hj, if_pos hj, List.getElem?_drop, List.getElem?_drop, ← hlen]
        exact hagree (c1.length / 2 + j) (Or.inr (Or.inl ⟨by omega, by omega⟩))
      · rw [if_neg hj, if_neg hj]
    have hseg3 : c1.drop (c1.length - SAMPLE_SIZE)
        = c2.drop (c2.length - SAMPLE_SIZE) := by
      apply List.ext_getElem?
      intro j
      rw [List.getElem?_drop, List.getElem?_drop, ← hlen]
      by_cases hj : j < SAMPLE_SIZE
      · exact hagree (c1.length - SAMPLE_SIZE + j)
          (Or.inr (Or.inr ⟨by omega, by omega⟩))
      · rw [List.getElem?_eq_none (by omega),
          List.getElem?_eq_none (by rw [← hlen]; omega)]
    have hinput : checksumInput c1.length c1 = checksumInput c2.length c2 := by
      rw [checksumInput_big c1 hbig, checksumInput_big c2 hbig2,
        hseg1, hseg2, hseg3]
    simp only [calculate_checksum, hinput]
  · intro heq
    rcases hreg with hr1 | ⟨hr2a, hr2b⟩ | ⟨hr3a, hr3b⟩
    · have e1 := (checksumInput_getElem c1 hbig i hr1).1
      have e2 := (checksumInput_getElem c2 hbig2 i hr1).1
      apply hne
      rw [← e1, ← e2, heq]
    · have hi0 : i - c1.length / 2 < SAMPLE_SIZE := by omega
      have e1 := (checksumInput_getElem c1 hbig (i - c1.length / 2) hi0).2.1
      have e2 := (checksumInput_getElem c2 hbig2 (i - c1.length / 2) hi0).2.1
      have hrei : c1.length / 2 + (i - c1.length / 2) = i := by omega
      have hrei2 : c2.length / 2 + (i - c1.length / 2) = i := by omega
      rw [hrei] at e1
      rw [hrei2] at e2
      apply hne
      rw [← e1, ← e2, heq]
    · have hi0 : i - (c1.length - SAMPLE_SIZE) < SAMPLE_SIZE := by omega
      have e1 := (checksumInput_getElem c1 hbig
        (i - (c1.length - SAMPLE_SIZE)) hi0).2.2
      have e2 := (checksumInput_getElem c2 hbig2
        (i - (c1.length - SAMPLE_SIZE)) hi0).2.2
      have hrei : c1.length - SAMPLE_SIZE + (i - (c1.length - SAMPLE_SIZE)) = i := by
        omega
      have hrei2 : c2.length - SAMPLE_SIZE + (i - (c1.length - SAMPLE_SIZE)) = i := by
        omega
      rw [hrei] at e1
      rw [hrei2] at e2
      apply hne
      rw [← e1, ← e2, heq]

/-- Concrete instantiation of `C7_fingerprint`: two files of 10 MiB + 1
bytes that differ at byte 0 (inside the head sample) feed different byte
sequences to the hash. -/
theorem C7_fingerprint_witness :
    checksumInput (List.replicate (10*1024*1024 + 1) (0:Nat)).length
        (List.replicate (10*1024*1024 + 1) 0)
      ≠ checksumInput (1 :: List.replicate (10*1024*1024) (0:Nat)).length
          (1 :: List.replicate (10*1024*1024) 0) := by
  have hlen : (List.replicate (10*1024*1024 + 1) (0:Nat)).length
      = (1 :: List.replicate (10*1024*1024) (0:Nat)).length := by
    rw [List.length_replicate, List.length_cons, List.length_replicate]
  have hbig : LARGE_FILE_THRESHOLD
      < (List.replicate (10*1024*1024 + 1) (0:Nat)).length := by
    rw [List.length_replicate]; decide
  have hreg : inSampledRegion (List.replicate (10*1024*1024 + 1) (0:Nat)).length 0 :=
    Or.inl (by decide)
  have hne : (List.replicate (10*1024*1024 + 1) (0:Nat))[0]?
      ≠ (1 :: List.replicate (10*1024*1024) (0:Nat))[0]? := by
    rw [List.replicate_succ, List.getElem?_cons_zero, List.getElem?_cons_zero]
    intro hcontra
    exact Nat.zero_ne_one (Option.some.inj hcontra)
  exact (C7_fingerprint (fun _ => "d") _ _ hlen hbig).2.2 0 hreg hne

/-! ### C9: unreadable files still yield records -/

/-- C9: `calculate_checksum` is total over read failures — an unreadable
file yields `none` rather than an exception — and `scan_directory` still
emits a record for such a file, with a null checksum and the stat-derived
size, mtime, extension and file type intact. -/
theorem C9_unreadable_file (H : List Nat → String) (mount : List Char)
    (now : Int) (entries : List DirEntry) (e : DirEntry) (he : e ∈ entries)
    (hfile : e.isFile = true) (hstat : e.statOk = true)
    (hcontent : e.content = none) (hsize : 0 < e.size) :
    (∀ size : Nat, calculate_checksum H none size = none)
    ∧ ∃ r ∈ scan_directory H mount now (some entries),
        r.path = e.path ∧ r.checksum = none ∧ r.size = e.size
        ∧ r.mtime = e.mtime ∧ r.extension = lowerChars (pathSuffix e.name)
        ∧ r.file_type = categorize_file e.path := by
  refine ⟨fun _ => rfl, ?_⟩
  refine ⟨{ path := e.path, size := e.size, mtime := e.mtime,
            mount_point := mount,
            extension := lowerChars (pathSuffix e.name),
            file_type := categorize_file e.path,
            scan_time := now,
            checksum := storedChecksum H e.content e.size }, ?_, ?_⟩
  · simp only [scan_directory]
    exact List.mem_filterMap.mpr ⟨e, he, by simp [scanEntry, hfile, hstat]⟩
  · refine ⟨rfl, ?_, rfl, rfl, rfl, rfl⟩
    simp [storedChecksum, hsize, hcontent, calculate_checksum]

/-- Concrete instantiation of `C9_unreadable_file`: a 5-byte file whose
content cannot be read. -/
theorem C9_unreadable_file_witness :
    (∀ size : Nat, calculate_checksum (fun _ => "d") none size = none)
    ∧ ∃ r ∈ scan_directory (fun _ => "d") ("m".toList) 0 (some [entryA]),
        r.path = entryA.path ∧ r.checksum = none ∧ r.size = entryA.size
        ∧ r.mtime = entryA.mtime
        ∧ r.extension = lowerChars (pathSuffix entryA.name)
        ∧ r.file_type = categorize_file entryA.path :=
  C9_unreadable_file (fun _ => "d") ("m".toList) 0 [entryA] entryA
    (List.mem_singleton.mpr rfl) rfl rfl rfl (by decide)

/-! ### C6: the batch write is an idempotent upsert keyed on path -/

lemma find?_filter_of_imp (l : List FileInfo) (f g : FileInfo → Bool)
    (h : ∀ x, f x = true → g x = true) :
    (l.filter g).find? f = l.find? f := by
  induction l with
  | nil => rfl
  | cons a t ih =>
    by_cases hg : g a = true
    · rw [List.filter_cons_of_pos hg, List.find?_cons, List.find?_cons]
      cases hf : f a
      · exact ih
      · rfl
    · rw [List.filter_cons_of_neg (by simp [hg]), List.find?_cons]
      have hf : f a = false := by
        cases hfa : f a
        · rfl
        · exact absurd (h a hfa) (by simp [hg])
      rw [hf]
      exact ih

/-- One upsert, seen through `findRow`: it installs the new row at its path
and leaves every other path unchanged. -/
lemma findRow_upsert (db : List FileInfo) (r : FileInfo) (p : List Char) :
    findRow (upsertRow db r) p = if r.path = p then some r else findRow db p := by
  unfold findRow upsertRow
  rw [List.find?_append]
  by_cases hp : r.path = p
  · have hnone : (db.filter (fun x => !decide (x.path = r.path))).find?
        (fun x => decide (x.path = p)) = none := by
      apply List.find?_eq_none.mpr
      intro x hx
      have := (List.mem_filter.mp hx).2
      simp only [Bool.not_eq_true', decide_eq_false_iff_not] at this
      simp only [decide_eq_true_eq]
      rw [← hp]
      exact this
    rw [hnone, if_pos hp]
    simp [List.find?, hp]
  · have hsingle : ([r].find? (fun x => decide (x.path = p))) = none := by
      simp [List.find?, hp]
    have himp : ∀ x : FileInfo, decide (x.path = p) = true →
        (!decide (x.path = r.path)) = true := by
      intro x hx
      simp only [decide_eq_true_eq] at hx
      simp only [Bool.not_eq_true', decide_eq_false_iff_not]
      rw [hx]
      exact fun hc => hp hc.symm
    rw [hsingle, if_neg hp, find?_filter_of_imp db _ _ himp, Option.or_none]

/-- `findRow` after a whole batch: the last write in the batch for the
queried path wins; paths not written by the batch are unchanged. -/
lemma findRow_save_files (db : List FileInfo) (b : List FileInfo) (p : List Char) :
    findRow (save_files db b) p =
      match b.reverse.find? (fun r => decide (r.path = p)) with
      | some r => some r
      | none => findRow db p := by
  induction b generalizing db with
  | nil => rfl
  | cons r t ih =>
    show findRow (save_files (upsertRow db r) t) p = _
    rw [ih (upsertRow db r)]
    rw [List.reverse_cons, List.find?_append]
    cases ht : t.reverse.find? (fun x => decide (x.path = p)) with
    | some x => rfl
    | none =>
      simp only [Option.none_or]
      rw [findRow_upsert]
      by_cases hp : r.path = p
      · rw [if_pos hp]
        simp [List.find?, hp]
      · rw [if_neg hp]
        simp [List.find?, hp]

lemma nodup_keys_upsert (db : List FileInfo) (r : FileInfo)
    (h : (db.map (fun x => x.path)).Nodup) :
    ((upsertRow db r).map (fun x => x.path)).Nodup := by
  unfold upsertRow
  rw [List.map_append, List.map_cons, List.map_nil, List.nodup_append]
  refine ⟨h.sublist ((List.filter_sublist db).map _), List.nodup_singleton _, ?_⟩
  intro a ha hb
  rw [List.mem_singleton] at hb
  obtain ⟨x, hx, hxa⟩ := List.mem_map.mp ha
  have hne := (List.mem_filter.mp hx).2
  simp only [Bool.not_eq_true', decide_eq_false_iff_not] at hne
  exact hne (hxa.trans hb ▸ rfl)

lemma nodup_keys_save_files (b : List FileInfo) :
    ∀ db : List FileInfo, (db.map (fun x => x.path)).Nodup →
      ((save_files db b).map (fun x => x.path)).Nodup := by
  induction b with
  | nil => exact fun db h => h
  | cons r t ih =>
    intro db h
    exact ih (upsertRow db r) (nodup_keys_upsert db r h)

/-- C6: writing a batch twice leaves the `files` table in the same state
(observed through primary-key lookup) as writing it once, and the
path-uniqueness of rows is preserved, so re-scanning a path never
duplicates rows. -/
theorem C6_idempotent_upsert (db batch : List FileInfo) :
    (∀ p : List Char, findRow (save_files (save_files db batch) batch) p
        = findRow (save_files db batch) p)
    ∧ ((db.map (fun r => r.path)).Nodup →
        ((save_files db batch).map (fun r => r.path)).Nodup) := by
  refine ⟨fun p => ?_, nodup_keys_save_files batch db⟩
  rw [findRow_save_files (save_files db batch) batch p,
    findRow_save_files db batch p]
  cases h : batch.reverse.find? (fun r => decide (r.path = p)) with
  | some x => rfl
  | none => rfl

/-- Concrete instantiation of `C6_idempotent_upsert`: one-row batch over an
empty table. -/
theorem C6_idempotent_upsert_witness :
    findRow (save_files (save_files [] [rowA]) [rowA]) rowA.path
      = findRow (save_files [] [rowA]) rowA.path
    ∧ ((save_files [] [rowA]).map (fun r => r.path)).Nodup :=
  ⟨(C6_idempotent_upsert [] [rowA]).1 rowA.path,
    (C6_idempotent_upsert [] [rowA]).2 (by decide)⟩

/-! ### C3: a failed flush is logged and non-fatal, but the batch is lost -/

lemma findRow_save_files_none (db b : List FileInfo) (p : List Char)
    (h0 : findRow db p = none) (hb : ∀ r ∈ b, r.path ≠ p) :
    findRow (save_files db b) p = none := by
  rw [findRow_save_files]
  have hfind : b.reverse.find? (fun r => decide (r.path = p)) = none := by
    apply List.find?_eq_none.mpr
    intro x hx
    simp only [Bool.not_eq_true, decide_eq_false_iff_not]
    exact hb x (List.mem_reverse.mp hx)
  rw [hfind]
  exact h0

lemma findRow_runBatches_none (batches : List (List FileInfo × Bool)) :
    ∀ db : List FileInfo, ∀ p : List Char, findRow db p = none →
      (∀ pr ∈ batches, ∀ r ∈ pr.1, r.path ≠ p) →
      findRow (runBatches db batches) p = none := by
  induction batches with
  | nil => exact fun db p h0 _ => h0
  | cons pr rest ih =>
    intro db p h0 hall
    show findRow (runBatches ((save_files_attempt pr.2 db pr.1).1) rest) p = none
    apply ih
    · unfold save_files_attempt
      by_cases he : pr.1.isEmpty
      · rw [if_pos he]
        exact h0
      · rw [if_neg he]
        by_cases hok : pr.2
        · rw [if_pos hok]
          exact findRow_save_files_none db pr.1 p h0
            (hall pr (List.mem_cons_self pr rest))
        · rw [if_neg hok]
          exact h0
    · exact fun q hq => hall q (List.mem_cons_of_mem pr hq)

/-- C3 counterexample to the claim that a failed batch is retained and
written on a later attempt: over an empty table, flushing `[rowA]` fails
(logged, no exception), then flushing `[rowB]` succeeds; `rowA` is absent
from the final table even though a later write attempt happened — the
failed batch was dropped, not retained. -/
theorem C3_counterexample :
    (save_files_attempt false [] [rowA]).2 = true
    ∧ findRow (runBatches [] [([rowA], false), ([rowB], true)]) rowA.path = none
    ∧ findRow (runBatches [] [([rowA], false), ([rowB], true)]) rowB.path
        = some rowB := by
  refine ⟨rfl, ?_, ?_⟩ <;> decide

/-- C3 (amended): a flush failure is logged and the caller sees no
exception and no change to the table, but the batch is **not** retained:
a path that appears only in the failed batch never reaches the table,
no matter what is flushed afterwards. -/
theorem C3_flush_failure (db b : List FileInfo)
    (rest : List (List FileInfo × Bool)) (p : List Char)
    (hb : b ≠ []) (h0 : findRow db p = none)
    (hrest : ∀ pr ∈ rest, ∀ r ∈ pr.1, r.path ≠ p) :
    (save_files_attempt false db b).1 = db
    ∧ (save_files_attempt false db b).2 = true
    ∧ findRow (runBatches db ((b, false) :: rest)) p = none := by
  have hne : b.isEmpty = false := by
    cases b
    · exact absurd rfl hb
    · rfl
  refine ⟨by simp [save_files_attempt, hne], by simp [save_files_attempt, hne], ?_⟩
  show findRow (runBatches ((save_files_attempt false db b).1) rest) p = none
  have hdb : (save_files_attempt false db b).1 = db := by
    simp [save_files_attempt, hne]
  rw [hdb]
  exact findRow_runBatches_none rest db p h0 hrest

/-- Concrete instantiation of `C3_flush_failure`. -/
theorem C3_flush_failure_witness :
    (save_files_attempt false [] [rowA]).1 = []
    ∧ (save_files_attempt false [] [rowA]).2 = true
    ∧ findRow (runBatches [] [([rowA], false), ([rowB], true)]) rowA.path
        = none :=
  C3_flush_failure [] [rowA] [([rowB], true)] rowA.path
    (by decide) rfl (by decide)

/-! ### C4: resume filtering of initial chunks -/

/-- C4 counterexample to strict disjointness of planned chunks from the
completed set: with `/r/a` recorded as completed together with 11 of its
subdirectories, `_is_toplevel_directory_complete` judges it an interrupted
progressive scan (more than 10 recorded subdirectories) and the planner
re-emits a chunk whose path `/r/a` **is** in the completed set. -/
theorem C4_counterexample :
    (generate_initial_chunks "/r".toList "m".toList (some ["/r/a".toList])
        scannedEx).map (fun ch => ch.path) = ["/r/a".toList]
    ∧ "/r/a".toList ∈ scannedEx := by
  refine ⟨by decide, by decide⟩

/-- C4 (amended): every chunk returned by initial planning has a path that
is either absent from the completed set, or present but with more than 10
recorded subdirectories (i.e. inferred to be a partial, not full, scan);
a completed path inferred to be fully scanned is never re-emitted. -/
theorem C4_resume_filter (root mount : List Char)
    (listing : Option (List (List Char))) (scanned : List (List Char))
    (ch : Chunk) (hch : ch ∈ generate_initial_chunks root mount listing scanned) :
    ch.path ∉ scanned ∨ 10 < countScannedSubdirs ch.path scanned := by
  cases listing with
  | none =>
    simp only [generate_initial_chunks] at hch
    by_cases hr : root ∈ scanned
    · rw [if_pos (by simp [hr])] at hch
      exact absurd hch (List.not_mem_nil ch)
    · rw [if_neg (by simp [hr]), List.mem_singleton] at hch
      left
      rw [hch]
      exact hr
  | some directories =>
    simp only [generate_initial_chunks] at hch
    by_cases hd : directories.isEmpty
    · rw [if_pos hd] at hch
      by_cases hr : root ∈ scanned
      · rw [if_pos (by simp [hr])] at hch
        exact absurd hch (List.not_mem_nil ch)
      · rw [if_neg (by simp [hr]), List.mem_singleton] at hch
        left
        rw [hch]
        exact hr
    · rw [if_neg hd] at hch
      obtain ⟨iv, _, heq⟩ := List.mem_filterMap.mp hch
      by_cases hcomp : isTopLevelComplete iv.2 scanned = true
      · rw [if_pos hcomp] at heq
        exact absurd heq (by simp)
      · rw [if_neg hcomp] at heq
        have hpath : ch.path = iv.2 := by
          rw [← Option.some.inj heq]
        rw [hpath]
        by_cases hmem : iv.2 ∈ scanned
        · right
          by_cases hcnt : 10 < countScannedSubdirs iv.2 scanned
          · exact hcnt
          · exfalso
            apply hcomp
            unfold isTopLevelComplete
            rw [if_pos (by simp [hmem]), if_neg hcnt]
        · exact Or.inl hmem

/-- Concrete instantiation of `C4_resume_filter` at the fixture: the
re-emitted `/r/a` chunk is justified by its more than 10 recorded
subdirectories. -/
theorem C4_resume_filter_witness :
    chunkA.path ∉ scannedEx ∨ 10 < countScannedSubdirs chunkA.path scannedEx :=
  C4_resume_filter "/r".toList "m".toList (some ["/r/a".toList]) scannedEx
    chunkA (by decide)

/-! ### C8: oversized verdicts from the sizing probe -/

/-- C8: with no cache entry for the path, if the quick file-count probe
exits 0 reporting more than 50000 files, or the `du` fallback (when
reached) times out, then `get_directory_size` returns a value strictly
greater than the chunk-size threshold, so the directory is treated as
oversized instead of blocking the run. -/
theorem C8_oversized (chunkBytes : Nat) (path : List Char)
    (countR : CountOutcome) (findR : FindOutcome) (duR : DuOutcome) :
    (∀ cnt : Nat, countR = CountOutcome.ok 0 cnt → 50000 < cnt →
      chunkBytes < get_directory_size chunkBytes path none countR findR duR)
    ∧ (reachesDuProbe path countR findR → duR = DuOutcome.timeout →
      chunkBytes < get_directory_size chunkBytes path none countR findR duR) := by
  constructor
  · intro cnt hc hcnt
    subst hc
    have hres : get_directory_size chunkBytes path none (CountOutcome.ok 0 cnt)
        findR duR = chunkBytes + 1 := by
      show (if (0:Int) = 0 ∧ 50000 < cnt then chunkBytes + 1
        else sizingProbe chunkBytes findR duR) = chunkBytes + 1
      rw [if_pos ⟨rfl, hcnt⟩]
    rw [hres]
    omega
  · intro hreach hdu
    subst hdu
    obtain ⟨h1, h2⟩ := hreach
    have hs : sizingProbe chunkBytes findR DuOutcome.timeout = chunkBytes + 1 := by
      cases findR with
      | ok rcf sizes =>
        show (if rcf = 0 ∧ sizes ≠ [] then sizes.sum
          else duProbe chunkBytes DuOutcome.timeout) = chunkBytes + 1
        rw [if_neg h2]
        rfl
      | fail => rfl
    have hres : get_directory_size chunkBytes path none countR findR
        DuOutcome.timeout = chunkBytes + 1 := by
      cases countR with
      | ok rc cnt =>
        show (if rc = 0 ∧ 50000 < cnt then chunkBytes + 1
          else sizingProbe chunkBytes findR DuOutcome.timeout) = chunkBytes + 1
        rw [if_neg h1, hs]
      | exc =>
        show (if isRootMountPath path = true then chunkBytes + 1
          else sizingProbe chunkBytes findR DuOutcome.timeout) = chunkBytes + 1
        rw [if_neg (by simp [h1]), hs]
    rw [hres]
    omega

/-- Concrete instantiation of `C8_oversized` at the default 100 GiB
threshold: a count probe reporting 60000 files, and separately a run
whose count probe reports 10 files, whose fast sizing fails and whose
`du` fallback times out. -/
theorem C8_oversized_witness :
    (CHUNK_SIZE_BYTES < get_directory_size CHUNK_SIZE_BYTES "/x".toList none
      (CountOutcome.ok 0 60000) FindOutcome.fail DuOutcome.timeout)
    ∧ (CHUNK_SIZE_BYTES < get_directory_size CHUNK_SIZE_BYTES "/x".toList none
      (CountOutcome.ok 0 10) FindOutcome.fail DuOutcome.timeout) :=
  ⟨(C8_oversized CHUNK_SIZE_BYTES "/x".toList (CountOutcome.ok 0 60000)
      FindOutcome.fail DuOutcome.timeout).1 60000 rfl (by decide),
   (C8_oversized CHUNK_SIZE_BYTES "/x".toList (CountOutcome.ok 0 10)
      FindOutcome.fail DuOutcome.timeout).2
     ⟨fun hcon => by omega, trivial⟩ rfl⟩

/-! ### C10: fast-mode planning always yields work -/

/-- C10: `list_quick_chunks` never returns an empty list — one chunk per
top-level subdirectory when any exist, and otherwise (no subdirectories
listed, or the listing failed) exactly one fallback chunk whose path is the
root path itself. -/
theorem C10_quick_chunks (root mount : List Char)
    (listing : Option (List ScanEntry)) :
    list_quick_chunks root mount listing ≠ []
    ∧ (∀ entries : List ScanEntry, listing = some entries →
        entries.filter (fun e => e.isDir) ≠ [] →
        (list_quick_chunks root mount listing).map (fun ch => ch.path)
          = (entries.filter (fun e => e.isDir)).map (fun e => e.path))
    ∧ (∀ entries : List ScanEntry, listing = some entries →
        entries.filter (fun e => e.isDir) = [] →
        list_quick_chunks root mount listing
          = [⟨root, 0, mount, 0, "fast-root".toList⟩])
    ∧ (listing = none → list_quick_chunks root mount listing
        = [⟨root, 0, mount, 0, "fast-root".toList⟩]) := by
  refine ⟨?_, fun entries he hne => ?_, fun entries he hemp => ?_, fun he => ?_⟩
  · simp only [list_quick_chunks]
    split
    · simp
    · next h => simpa [List.isEmpty_iff] using h
  · subst he
    simp only [list_quick_chunks]
    rw [if_neg (by
      simp only [List.isEmpty_iff, List.map_eq_nil_iff]
      exact hne)]
    rw [List.map_map]
    rfl
  · subst he
    simp only [list_quick_chunks]
    rw [if_pos (by simp [hemp])]
  · subst he
    rfl

/-- Concrete instantiation of `C10_quick_chunks`: a listing with one
subdirectory and one plain file. -/
theorem C10_quick_chunks_witness :
    list_quick_chunks "/r".toList "m".toList (some entriesEx) ≠ []
    ∧ (list_quick_chunks "/r".toList "m".toList (some entriesEx)).map
          (fun ch => ch.path)
        = (entriesEx.filter (fun e => e.isDir)).map (fun e => e.path) :=
  ⟨(C10_quick_chunks "/r".toList "m".toList (some entriesEx)).1,
   (C10_quick_chunks "/r".toList "m".toList (some entriesEx)).2.1
     entriesEx rfl (by decide)⟩

/-! ### C5: the worker cap is never exceeded -/

lemma count_true_add_count_false (l : List Bool) :
    l.count true + l.count false = l.length := by
  induction l with
  | nil => rfl
  | cons b t ih =>
    cases b <;> simp [List.count_cons] <;> omega

lemma poolReachable_length {n : Nat} {s : PoolState} (h : PoolReachable n s) :
    s.busy.length = n := by
  induction h with
  | init k => exact List.length_replicate n false
  | step s t hs hst ih =>
    cases hst with
    | launch i hidle hq =>
      show (s.busy.set i true).length = n
      rw [List.length_set]
      exact ih
    | finish i hbusy =>
      show (s.busy.set i false).length = n
      rw [List.length_set]
      exact ih
    | enqueue k => exact ih

/-- C5: in every reachable pool state the number of simultaneously running
containers is at most the worker cap `n`; moreover whenever a launch is
possible (some pool thread is idle, which is the precondition of the
`launch` step) strictly fewer than `n` containers are active — a new
container is started only when fewer than the cap are running. -/
theorem C5_concurrency_cap (n : Nat) (s : PoolState) (h : PoolReachable n s) :
    activeContainers s ≤ n
    ∧ ∀ i : Nat, s.busy[i]? = some false → activeContainers s < n := by
  have hlen : s.busy.length = n := poolReachable_length h
  constructor
  · calc activeContainers s = s.busy.count true := rfl
      _ ≤ s.busy.length := List.count_le_length true s.busy
      _ = n := hlen
  · intro i hi
    have hmem : false ∈ s.busy := by
      obtain ⟨hlt, he⟩ := List.getElem?_eq_some.mp hi
      exact he ▸ List.getElem_mem hlt
    have hpos : 0 < s.busy.count false := List.count_pos_iff.mpr hmem
    have hsum := count_true_add_count_false s.busy
    have hact : activeContainers s = s.busy.count true := rfl
    omega

/-- Concrete instantiation of `C5_concurrency_cap`: the initial state of a
pool of 2 threads with 5 queued chunks. -/
theorem C5_concurrency_cap_witness :
    activeContainers ⟨List.replicate 2 false, 5⟩ ≤ 2
    ∧ ∀ i : Nat, (PoolState.mk (List.replicate 2 false) 5).busy[i]? = some false →
        activeContainers ⟨List.replicate 2 false, 5⟩ < 2 :=
  C5_concurrency_cap 2 ⟨List.replicate 2 false, 5⟩ (PoolReachable.init 5)

/-! ### C1: failing chunks are dispatched once and never retried -/

lemma processChunkStep_completed (outcome : List Char → ChunkOutcome)
    (st : OrchCounters) (ch : Chunk) :
    (processChunkStep outcome st ch).completed
      = st.completed + (if chunkSucceeds outcome ch then 1 else 0) := by
  unfold processChunkStep
  cases h : outcome ch.path with
  | launchFail =>
    have hcs : chunkSucceeds outcome ch = false := by
      unfold chunkSucceeds
      rw [h]
    rw [hcs]
    simp
  | exits code =>
    have hcs : chunkSucceeds outcome ch = decide (code = 0) := by
      unfold chunkSucceeds
      rw [h]
    rw [hcs]
    by_cases hc : code = 0
    · simp [hc]
    · simp [hc]

lemma processChunkStep_failed (outcome : List Char → ChunkOutcome)
    (st : OrchCounters) (ch : Chunk) :
    (processChunkStep outcome st ch).failed
      = st.failed + (if chunkSucceeds outcome ch then 0 else 1) := by
  unfold processChunkStep
  cases h : outcome ch.path with
  | launchFail =>
    have hcs : chunkSucceeds outcome ch = false := by
      unfold chunkSucceeds
      rw [h]
    rw [hcs]
    simp
  | exits code =>
    have hcs : chunkSucceeds outcome ch = decide (code = 0) := by
      unfold chunkSucceeds
      rw [h]
    rw [hcs]
    by_cases hc : code = 0
    · simp [hc]
    · simp [hc]

lemma processQueue_completed (outcome : List Char → ChunkOutcome)
    (q : List Chunk) :
    (processQueue outcome q).completed = q.countP (chunkSucceeds outcome) := by
  have hgen : ∀ st : OrchCounters,
      (q.foldl (processChunkStep outcome) st).completed
        = st.completed + q.countP (chunkSucceeds outcome) := by
    induction q with
    | nil => intro st; simp
    | cons ch t ih =>
      intro st
      rw [List.foldl_cons, ih, processChunkStep_completed, List.countP_cons]
      omega
  have := hgen ⟨0, 0⟩
  simpa [processQueue] using this

lemma processQueue_failed (outcome : List Char → ChunkOutcome)
    (q : List Chunk) :
    (processQueue outcome q).failed
      = q.countP (fun ch => !chunkSucceeds outcome ch) := by
  have hgen : ∀ st : OrchCounters,
      (q.foldl (processChunkStep outcome) st).failed
        = st.failed + q.countP (fun ch => !chunkSucceeds outcome ch) := by
    induction q with
    | nil => intro st; simp
    | cons ch t ih =>
      intro st
      rw [List.foldl_cons, ih, processChunkStep_failed, List.countP_cons]
      cases hv : chunkSucceeds outcome ch <;> simp [hv] <;> omega
  have := hgen ⟨0, 0⟩
  simpa [processQueue] using this

/-- C1 counterexample to the retry claim: the chunk processing loop has no
retry state at all.  With a queue holding the always-failing chunk `/r/a`
(exit code 1) and the succeeding chunk `/r/b`, the worker for `/r/a` is
invoked exactly once — never `MAX_RETRIES + 1 ≥ 2` times as the claimed
retry-with-backoff design requires for any positive retry budget — and the
chunk is counted failed with no further attempt and no backoff wait. -/
theorem C1_counterexample :
    workerInvocations outcomeAlwaysFail [chunkA, chunkB] chunkA.path = 1
    ∧ (processQueue outcomeAlwaysFail [chunkA, chunkB]).failed = 1
    ∧ ∀ MAXRETRIES : Nat, 1 ≤ MAXRETRIES →
        workerInvocations outcomeAlwaysFail [chunkA, chunkB] chunkA.path
          ≠ MAXRETRIES + 1 := by
  refine ⟨by decide, by decide, ?_⟩
  intro m hm
  have h1 : workerInvocations outcomeAlwaysFail [chunkA, chunkB] chunkA.path
      = 1 := by decide
  omega

/-- C1 (amended): a chunk that is enqueued once and whose worker exits
non-zero is dispatched exactly once, counted failed, and never retried,
while every queued chunk still reaches a terminal count (completed plus
failed equals the queue length), so the failure blocks no other chunk. -/
theorem C1_single_attempt (outcome : List Char → ChunkOutcome) (q : List Chunk)
    (ch : Chunk) (hmem : ch ∈ q)
    (honce : (q.filter (fun d => decide (d.path = ch.path))).length = 1)
    (code : Int) (hout : outcome ch.path = ChunkOutcome.exits code)
    (hnz : code ≠ 0) :
    workerInvocations outcome q ch.path = 1
    ∧ 1 ≤ (processQueue outcome q).failed
    ∧ (processQueue outcome q).completed + (processQueue outcome q).failed
        = q.length := by
  have hfailch : (!chunkSucceeds outcome ch) = true := by
    have hcs : chunkSucceeds outcome ch = decide (code = 0) := by
      unfold chunkSucceeds
      rw [hout]
    rw [hcs]
    simp [hnz]
  refine ⟨?_, ?_, ?_⟩
  · unfold workerInvocations
    have hcongr : List.filter
        (fun d => decide (d.path = ch.path) && isWorkerRun outcome d) q
        = List.filter (fun d => decide (d.path = ch.path)) q := by
      apply List.filter_congr
      intro d _
      by_cases hd : d.path = ch.path
      · have hrun : isWorkerRun outcome d = true := by
          unfold isWorkerRun
          rw [hd, hout]
        simp [hd, hrun]
      · simp [hd]
    rw [hcongr]
    exact honce
  · rw [processQueue_failed]
    exact List.countP_pos_iff.mpr ⟨ch, hmem, hfailch⟩
  · rw [processQueue_completed, processQueue_failed]
    have hcompl := List.length_eq_countP_add_countP
      (chunkSucceeds outcome) (l := q)
    have hcongr : q.countP (fun c => decide ¬(chunkSucceeds outcome c = true))
        = q.countP (fun c => !chunkSucceeds outcome c) := by
      apply List.countP_congr
      intro c _
      cases hv : chunkSucceeds outcome c <;> simp [hv]
    rw [hcongr] at hcompl
    omega

/-- Concrete instantiation of `C1_single_attempt` at the fixture queue. -/
theorem C1_single_attempt_witness :
    workerInvocations outcomeAlwaysFail [chunkA, chunkB] chunkA.path = 1
    ∧ 1 ≤ (processQueue outcomeAlwaysFail [chunkA, chunkB]).failed
    ∧ (processQueue outcomeAlwaysFail [chunkA, chunkB]).completed
        + (processQueue outcomeAlwaysFail [chunkA, chunkB]).failed
        = [chunkA, chunkB].length :=
  C1_single_attempt outcomeAlwaysFail [chunkA, chunkB] chunkA (by decide)
    (by decide) 1 (by decide) (by decide)

end NasInventory
